import Mathlib

/-!
Shallow embedding of the execution and dispatch core of
`humann2src/utilities.py`: the output freshness gate (`check_outfiles`,
`remove_file`), the single invocation runner (`execute_command` with
`find_exe_in_path` and `file_exists_readable`), the parallel dispatcher
(`command_multiprocessing` with the `MultiprocessingWorker` queue pool), and
the sequence chunker (`break_up_fasta_file`).

File system state is an association list from path to file metadata; console
prints, log entries and child process spawns are recorded as an effect trace;
Python exceptions are values of `PyExc`; the persistent worker pool is a small
transition system driven by an explicit interleaving schedule.
-/

namespace Humann2

/-- Python exception values relevant to `utilities.py`.  `ioError` models
`IOError`, which is a subclass of `EnvironmentError` in Python 2 (and an alias
of `OSError` in Python 3); `envError` models a bare `EnvironmentError`;
`other` models any exception class outside the module's except clauses. -/
inductive PyExc where
  | ioError
  | envError
  | valueError
  | calledProcessError
  | other (name : String)
  deriving DecidableEq, Repr

/-- Decidable equality for `Except`, used to evaluate runner outcomes. -/
instance {ε α : Type} [DecidableEq ε] [DecidableEq α] : DecidableEq (Except ε α) :=
  fun a b =>
    match a, b with
    | .ok x, .ok y =>
      if h : x = y then .isTrue (by rw [h]) else .isFalse (by intro hc; cases hc; exact h rfl)
    | .error x, .error y =>
      if h : x = y then .isTrue (by rw [h]) else .isFalse (by intro hc; cases hc; exact h rfl)
    | .ok _, .error _ => .isFalse (by intro hc; cases hc)
    | .error _, .ok _ => .isFalse (by intro hc; cases hc)

/-- Truth of `isinstance(e, EnvironmentError)`. -/
def PyExc.isEnvironmentError : PyExc → Bool
  | .ioError => true
  | .envError => true
  | _ => false

/-- Metadata of one file: its size in bytes, whether `os.access(.., R_OK)`
holds, and whether `os.unlink` succeeds on it (false models an `OSError`). -/
structure FSFile where
  size : Nat
  readable : Bool
  deletable : Bool
  deriving DecidableEq, Repr

/-- File system state: an association list from path to file metadata. -/
structure FS where
  entries : List (String × FSFile)
  deriving DecidableEq, Repr

/-- Lookup of a path in an association list of files. -/
def lookupEntries : List (String × FSFile) → String → Option FSFile
  | [], _ => none
  | e :: rest, p => if e.1 = p then some e.2 else lookupEntries rest p

/-- Metadata at a path, if a file is there. -/
def FS.lookup (fs : FS) (p : String) : Option FSFile := lookupEntries fs.entries p

/-- Model of `os.path.isfile`. -/
def FS.isfile (fs : FS) (p : String) : Bool := (fs.lookup p).isSome

/-- Model of `os.path.getsize` (0 when the file is absent). -/
def FS.getsize (fs : FS) (p : String) : Nat :=
  match fs.lookup p with
  | some f => f.size
  | none => 0

/-- Model of `os.access(p, os.R_OK)`. -/
def FS.readAccess (fs : FS) (p : String) : Bool :=
  match fs.lookup p with
  | some f => f.readable
  | none => false

/-- Whether `os.unlink p` would succeed rather than raise `OSError`. -/
def FS.canUnlink (fs : FS) (p : String) : Bool :=
  match fs.lookup p with
  | some f => f.deletable
  | none => false

/-- Model of a successful `os.unlink`: drop every entry at the path. -/
def FS.unlink (fs : FS) (p : String) : FS :=
  ⟨fs.entries.filter (fun e => e.1 != p)⟩

/-- Observable effects of the runner: log entries, console prints and child
process spawns. -/
inductive Effect where
  | logDebug (msg : String)
  | logInfo (msg : String)
  | logError (msg : String)
  | logCritical (msg : String)
  | consolePrint (msg : String)
  | spawn (cmd : List String) (stdout_file stdin_file : Option String)
  deriving DecidableEq, Repr

/-- Whether an effect is a child process spawn. -/
def Effect.isSpawn : Effect → Bool
  | .spawn _ _ _ => true
  | _ => false

/-- Console messages of an effect trace, in order. -/
def consoleOf (effs : List Effect) : List String :=
  effs.filterMap (fun e =>
    match e with
    | .consolePrint m => some m
    | _ => none)

/-- Whether a trace spawns no child process. -/
def noSpawn (effs : List Effect) : Bool := effs.all (fun e => !e.isSpawn)

/-- Model of `remove_file` (utilities.py lines 211-222): if the file exists,
try to `os.unlink` it and log at debug level; an `OSError` from the unlink is
caught and logged at error level, never propagated. -/
def remove_file (fs : FS) (file : String) : FS × List Effect :=
  if fs.isfile file then
    if fs.canUnlink file then
      (fs.unlink file, [.logDebug ("Remove file: " ++ file)])
    else
      (fs, [.logError "Unable to remove file"])
  else
    (fs, [])

/-- The `for file in outfiles: remove_file(file)` loop of `check_outfiles`. -/
def removeAll (fs : FS) : List String → FS × List Effect
  | [] => (fs, [])
  | f :: rest =>
    let r1 := remove_file fs f
    let r2 := removeAll r1.1 rest
    (r2.1, r1.2 ++ r2.2)

/-- Model of `check_outfiles` (utilities.py lines 224-244): one bypass flag
per outfile (true iff the file exists, resume is on and the size is
positive); if any flag is false or the flag list is empty, every outfile is
removed and the gate returns false, otherwise it returns true. -/
def check_outfiles (resume : Bool) (fs : FS) (outfiles : List String) :
    Bool × FS × List Effect :=
  let bypass := outfiles.map (fun file =>
    if fs.isfile file then
      if resume && decide (0 < fs.getsize file) then true else false
    else false)
  if bypass.contains false || bypass.isEmpty then
    let r := removeAll fs outfiles
    (false, r.1, r.2)
  else
    (true, fs, [])

/-- Process environment for executable resolution: the directories of `$PATH`
and the existing full paths with their `os.access(.., X_OK)` bit. -/
structure Env where
  pathDirs : List String
  binaries : List (String × Bool)
  deriving DecidableEq, Repr

/-- Model of `os.path.join` for a directory and a file name. -/
def pathJoin (dir file : String) : String := dir ++ "/" ++ file

/-- Whether a full path exists in the environment. -/
def Env.pathExists (env : Env) (p : String) : Bool :=
  env.binaries.any (fun b => b.1 == p)

/-- Whether a full path exists and is executable. -/
def Env.executableAt (env : Env) (p : String) : Bool :=
  env.binaries.any (fun b => b.1 == p && b.2)

/-- Model of `find_exe_in_path` (utilities.py lines 124-137): scan the `$PATH`
directories and return true when some directory holds an existing, executable
full path for the name. -/
def find_exe_in_path (env : Env) (exe : String) : Bool :=
  env.pathDirs.any (fun dir =>
    env.pathExists (pathJoin dir exe) && env.executableAt (pathJoin dir exe))

/-- Model of `file_exists_readable(file, raise_IOError=True)` (utilities.py
lines 89-113): log a debug line, then on a missing or unreadable file log a
critical message, print it on the console, and raise `IOError`. -/
def file_exists_readable (fs : FS) (file : String) : Except PyExc Unit × List Effect :=
  let dbg := Effect.logDebug ("Check file exists and is readable: " ++ file)
  if !fs.isfile file then
    let message := "Can not find file " ++ file
    (.error .ioError,
      [dbg, .logCritical message, .consolePrint ("CRITICAL ERROR: " ++ message)])
  else if !fs.readAccess file then
    let message := "Not able to read file " ++ file
    (.error .ioError,
      [dbg, .logCritical message, .consolePrint ("CRITICAL ERROR: " ++ message)])
  else
    (.ok (), [dbg])

/-- The `for file in ...: logger.debug(..); file_exists_readable(file,
raise_IOError=True)` loops of `execute_command` (lines 330-332 and 366-368);
`label` is `"input"` or `"output"`. -/
def checkFilesLoop (label : String) (fs : FS) :
    List String → Except PyExc Unit × List Effect
  | [] => (.ok (), [])
  | f :: rest =>
    let dbg := Effect.logDebug ("Check " ++ label ++ " file exists and is readable: " ++ f)
    let r := file_exists_readable fs f
    match r.1 with
    | .error e => (.error e, dbg :: r.2)
    | .ok _ =>
      let rr := checkFilesLoop label fs rest
      (rr.1, dbg :: r.2 ++ rr.2)

/-- Effect trace of a fully successful `checkFilesLoop`. -/
def checkFilesEffects (label : String) : List String → List Effect
  | [] => []
  | f :: rest =>
    Effect.logDebug ("Check " ++ label ++ " file exists and is readable: " ++ f) ::
    Effect.logDebug ("Check file exists and is readable: " ++ f) ::
    checkFilesEffects label rest

/-- Result of starting the child process: either it ran and exited with a
code, combined output, and a possibly changed file system, or it could not be
started (an `EnvironmentError`). -/
inductive SpawnResult where
  | exit (code : Int) (output : String) (fs : FS)
  | startFailure (fs : FS)

/-- Behaviour of the operating system when asked to run a command line with
the given redirection targets on the given file system. -/
abbrev Runner := List String → Option String → Option String → FS → SpawnResult

/-- Effects of the `except (EnvironmentError, subprocess.CalledProcessError)`
handler of `execute_command` (lines 358-363): two critical log entries and a
console print; the exception is then re-raised. -/
def execFailEffects (message : String) : List Effect :=
  [.logCritical ("Problem executing " ++ message ++ "\n"),
   .logCritical "TRACEBACK",
   .consolePrint ("CRITICAL ERROR: " ++ ("Problem executing " ++ message ++ "\n"))]

/-- Model of `execute_command` (utilities.py lines 317-374).  Arguments are
taken as strings (the `args=[str(i) for i in args]` coercion is the identity
here).  Returns the Python outcome, the final file system and the effect
trace.  With `stdout_file` set the child runs under `subprocess.call`, whose
exit status is ignored; otherwise under `subprocess.check_output`, where a
non-zero exit raises `CalledProcessError`. -/
def execute_command (env : Env) (resume verbose : Bool) (runner : Runner)
    (fs : FS) (exe : String) (args : List String)
    (infiles outfiles : List String) (stdout_file stdin_file : Option String) :
    Except PyExc Unit × FS × List Effect :=
  if find_exe_in_path env exe then
    let inres := checkFilesLoop "input" fs infiles
    match inres.1 with
    | .error e => (.error e, fs, inres.2)
    | .ok _ =>
      let gate := check_outfiles resume fs outfiles
      if gate.1 then
        let notice :=
          if verbose then "Bypass: \n" ++ exe ++ " " ++ String.intercalate " " args ++ "\n"
          else "Bypass\n"
        (.ok (), gate.2.1, inres.2 ++ gate.2.2 ++ [.consolePrint notice])
      else
        let cmd := exe :: args
        let message := String.intercalate " " cmd
        let effs3 :=
          Effect.logInfo ("Execute command: " ++ message) ::
          (if verbose then [Effect.consolePrint ("\n" ++ message ++ "\n")] else [])
        let base := inres.2 ++ gate.2.2 ++ effs3 ++ [Effect.spawn cmd stdout_file stdin_file]
        match stdout_file, runner cmd stdout_file stdin_file gate.2.1 with
        | some _, .startFailure fs2 =>
          (.error .envError, fs2, base ++ execFailEffects message)
        | some _, .exit _ _ fs2 =>
          let outres := checkFilesLoop "output" fs2 outfiles
          (outres.1, fs2, base ++ outres.2)
        | none, .startFailure fs2 =>
          (.error .envError, fs2, base ++ execFailEffects message)
        | none, .exit code out fs2 =>
          if code = 0 then
            let outres := checkFilesLoop "output" fs2 outfiles
            (outres.1, fs2, base ++ [Effect.logDebug out] ++ outres.2)
          else
            (.error .calledProcessError, fs2, base ++ execFailEffects message)
  else
    let message := "Can not find executable " ++ exe
    (.error .envError, fs,
      [.consolePrint ("CRITICAL ERROR: " ++ message), .logCritical message])

/-- State of a `MultiprocessingWorker` process between its queue operations:
waiting on `work_queue.get()`, holding a computed result not yet put on the
results queue, or dead because its function raised (the `finally` clause has
already called `task_done`, and the exception ends the child process). -/
inductive WorkerState (β : Type) where
  | idle
  | pending (r : β)
  | dead
  deriving DecidableEq, Repr

/-- Whether a worker holds a result it has not yet put. -/
def WorkerState.isPending {β : Type} : WorkerState β → Bool
  | .pending _ => true
  | _ => false

/-- Shared state of the persistent worker pool: the joinable work queue in
FIFO order, the worker processes, and the results queue in put order. -/
structure QueueState (α β : Type) where
  queue : List α
  workers : List (WorkerState β)
  results : List β
  deriving DecidableEq, Repr

/-- One interleaving step of the pool: worker `i` performs its next queue
operation.  An idle worker pulls the head of the work queue and runs the
function on it, dying if the function raises (`task_done` runs in the
`finally` either way); a worker holding a result puts it on the results
queue and becomes idle; a dead worker, an out-of-range index, or an idle
worker facing an empty queue changes nothing. -/
def lockStep {α β : Type} (f : α → Except PyExc β) (s : QueueState α β) (i : Nat) :
    QueueState α β :=
  match s.workers.get? i with
  | none => s
  | some .dead => s
  | some (.pending b) =>
    { s with workers := s.workers.set i .idle, results := s.results ++ [b] }
  | some .idle =>
    match s.queue with
    | [] => s
    | a :: rest =>
      match f a with
      | .ok b => { s with queue := rest, workers := s.workers.set i (.pending b) }
      | .error _ => { s with queue := rest, workers := s.workers.set i .dead }

/-- Run the pool under an explicit interleaving schedule. -/
def lockRun {α β : Type} (f : α → Except PyExc β) (s : QueueState α β)
    (sched : List Nat) : QueueState α β :=
  sched.foldl (lockStep f) s

/-- Initial pool state: `threads` idle workers, all arguments enqueued. -/
def initState (β : Type) {α : Type} (threads : Nat) (args : List α) : QueueState α β :=
  ⟨args, List.replicate threads .idle, []⟩

/-- Whether `work_queue.join()` has returned: every enqueued item has been
matched by a `task_done`, i.e. the queue is empty and no worker holds an
unfinished task. -/
def drained {α β : Type} (s : QueueState α β) : Bool :=
  s.queue.isEmpty && s.workers.all (fun w => !w.isPending)

/-- Outcome of `command_multiprocessing` as seen by its caller. -/
inductive DispatchOutcome (β : Type) where
  | results (rs : List β)
  | fatalExit (msg : String)
  | uncaught (e : PyExc)
  | blocked
  deriving DecidableEq, Repr

/-- Fatal message of the dispatcher's except handler (lines 303-304). -/
def dispatchFatalMessage : String :=
  "Error in one of the processes. See the log file for additional details including tracebacks."

/-- Whether the dispatcher's `except (EnvironmentError, ValueError,
subprocess.CalledProcessError)` clause catches the exception. -/
def dispatcherCatches (e : PyExc) : Bool :=
  e.isEnvironmentError || e == .valueError || e == .calledProcessError

/-- Wrap a parent-side computation in the dispatcher's try/except: a caught
exception becomes `sys.exit(message)`, any other exception propagates. -/
def wrapDispatch {β : Type} (r : Except PyExc (List β)) : DispatchOutcome β :=
  match r with
  | .ok rs => .results rs
  | .error e => if dispatcherCatches e then .fatalExit dispatchFatalMessage else .uncaught e

/-- Left-to-right evaluation of `[function(arg) for arg in args]`: the first
exception aborts the comprehension. -/
def seqMap {α β : Type} (f : α → Except PyExc β) : List α → Except PyExc (List β)
  | [] => .ok []
  | a :: rest =>
    match f a with
    | .error e => .error e
    | .ok b =>
      match seqMap f rest with
      | .error e => .error e
      | .ok bs => .ok (b :: bs)

/-- Persistent worker (`lock`) branch of the dispatcher (lines 279-295): run
the pool under the given interleaving; once the work queue is drained and
`len(args)` results are available, the parent returns the collected results;
otherwise the parent is still blocked inside `work_queue.join()` or
`results_queue.get()` and has not returned. -/
def lockDispatch {α β : Type} (threads : Nat) (args : List α)
    (f : α → Except PyExc β) (sched : List Nat) : DispatchOutcome β :=
  if drained (lockRun f (initState β threads args) sched) &&
      (lockRun f (initState β threads args) sched).results.length == args.length then
    .results (lockRun f (initState β threads args) sched).results
  else .blocked

/-- Model of `command_multiprocessing` (utilities.py lines 267-308).  The
`sched` argument is the interleaving of the persistent workers' queue
operations; the other strategies ignore it.  `multiprocessing.Pool.map` is
modelled as an in-order map whose first worker exception is re-raised in the
parent process. -/
def command_multiprocessing {α β : Type} (threads : Nat) (args : List α)
    (f : α → Except PyExc β) (lock : Bool) (sched : List Nat) : DispatchOutcome β :=
  if 1 < threads then
    if lock then lockDispatch threads args f sched
    else wrapDispatch (seqMap f args)
  else wrapDispatch (seqMap f args)

/-- Worker function every call of which raises `subprocess.CalledProcessError`
(an invocation whose child process exited non-zero under capture). -/
def raiseCPE : Nat → Except PyExc Nat := fun _ => .error .calledProcessError

/-- Worker function every call of which raises a `KeyError`, an exception
class outside the dispatcher's except clause. -/
def raiseKeyError : Nat → Except PyExc Nat := fun _ => .error (.other "KeyError")

/-- A runner whose child processes exit 0 and leave the file system alone. -/
def idleRunner : Runner := fun _ _ _ fs => .exit 0 "" fs

/-- Whether a line is a FASTA record header (`re.search("^>", line)`). -/
def isHeader (l : String) : Bool := l.data.head? == some '>'

/-- Loop of `break_up_fasta_file` (utilities.py lines 486-504): `cur` is the
content of the currently open chunk file and `cnt` the value of
`current_seq`. -/
def breakLoop (max_seqs : Nat) (cur : List String) (cnt : Nat) :
    List String → List (List String)
  | [] => [cur]
  | l :: ls =>
    if isHeader l then
      if cnt == max_seqs then cur :: breakLoop max_seqs [l] 1 ls
      else breakLoop max_seqs (cur ++ [l]) (cnt + 1) ls
    else breakLoop max_seqs (cur ++ [l]) cnt ls

/-- Model of `break_up_fasta_file` (utilities.py lines 469-509): the source
file as a list of lines in, the chunk files as lists of lines out, in creation
order (naming by `unnamed_temp_file` is not modelled). -/
def break_up_fasta_file (lines : List String) (max_seqs : Nat) : List (List String) :=
  breakLoop max_seqs [] 0 lines

/-- Number of header lines of a file. -/
def countHeaders : List String → Nat
  | [] => 0
  | l :: ls => (if isHeader l then 1 else 0) + countHeaders ls

/-- Number of chunk splits the loop will still perform from counter `cnt`. -/
def splits (max_seqs cnt : Nat) : List String → Nat
  | [] => 0
  | l :: ls =>
    if isHeader l then
      if cnt == max_seqs then 1 + splits max_seqs 1 ls
      else splits max_seqs (cnt + 1) ls
    else splits max_seqs cnt ls

/-- One step of FASTA record parsing, used with `List.foldr`: the first
component holds the body lines read before the next header, the second the
records completed so far. -/
def parseStep (l : String) (acc : List String × List (List String)) :
    List String × List (List String) :=
  if isHeader l then ([], (l :: acc.1) :: acc.2) else (l :: acc.1, acc.2)

/-- Fold of `parseStep` over a whole file. -/
def parseState (lines : List String) : List String × List (List String) :=
  lines.foldr parseStep ([], [])

/-- Records of a FASTA file: each record is its header line followed by the
non-header lines up to the next header; lines before the first header belong
to no record. -/
def parseRecords (lines : List String) : List (List String) := (parseState lines).2

/-- Pending results held by the workers, in worker order. -/
def pendingVals {β : Type} : List (WorkerState β) → List β
  | [] => []
  | .pending b :: rest => b :: pendingVals rest
  | .idle :: rest => pendingVals rest
  | .dead :: rest => pendingVals rest

/-- Multiset contribution of one worker. -/
def wval {β : Type} : WorkerState β → Multiset β
  | .pending b => {b}
  | .idle => 0
  | .dead => 0

/-- Accounting multiset of a pool state for a total worker function `g`:
values still queued, values held by workers, values already put. -/
def acct {α β : Type} (g : α → β) (s : QueueState α β) : Multiset β :=
  (s.queue.map g : Multiset β) + (pendingVals s.workers : Multiset β) +
    (s.results : Multiset β)

/-! Lemmas about the file system model. -/

theorem lookupEntries_removeKey (es : List (String × FSFile)) (p q : String) :
    lookupEntries (es.filter (fun e => e.1 != p)) q =
      if q = p then none else lookupEntries es q := by
  induction es with
  | nil => by_cases h : q = p <;> simp [lookupEntries, h]
  | cons e rest ih =>
    by_cases hq : q = p
    · subst hq
      rw [if_pos rfl] at ih ⊢
      by_cases hep : e.1 = q
      · have hb : (e.1 != q) = false := by simp [hep]
        simp [List.filter_cons, hb, ih]
      · have hb : (e.1 != q) = true := by simp [hep]
        simp [List.filter_cons, hb, lookupEntries, hep, ih]
    · rw [if_neg hq] at ih ⊢
      by_cases hep : e.1 = p
      · have hb : (e.1 != p) = false := by simp [hep]
        have heq : ¬ e.1 = q := fun hc => hq (by rw [← hc, hep])
        simp [List.filter_cons, hb, ih, lookupEntries, heq]
      · have hb : (e.1 != p) = true := by simp [hep]
        by_cases heq : e.1 = q <;> simp [List.filter_cons, hb, lookupEntries, heq, hq, ih]

theorem FS.lookup_unlink (fs : FS) (p q : String) :
    (fs.unlink p).lookup q = if q = p then none else fs.lookup q :=
  lookupEntries_removeKey fs.entries p q

theorem remove_file_lookup_ne (fs : FS) (f q : String) (h : q ≠ f) :
    ((remove_file fs f).1).lookup q = fs.lookup q := by
  unfold remove_file
  by_cases h1 : fs.isfile f = true
  · by_cases h2 : fs.canUnlink f = true
    · rw [if_pos h1, if_pos h2]
      show (fs.unlink f).lookup q = fs.lookup q
      rw [FS.lookup_unlink, if_neg h]
    · rw [if_pos h1, if_neg h2]
  · rw [if_neg h1]

theorem remove_file_no_create (fs : FS) (f q : String)
    (h : ((remove_file fs f).1).isfile q = true) : fs.isfile q = true := by
  unfold remove_file at h
  by_cases h1 : fs.isfile f = true
  · by_cases h2 : fs.canUnlink f = true
    · rw [if_pos h1, if_pos h2] at h
      have h3 : ((fs.unlink f).lookup q).isSome = true := h
      rw [FS.lookup_unlink] at h3
      by_cases hq : q = f
      · rw [if_pos hq] at h3
        simp at h3
      · rw [if_neg hq] at h3
        exact h3
    · rw [if_pos h1, if_neg h2] at h
      exact h
  · rw [if_neg h1] at h
    exact h

theorem removeAll_no_create (files : List String) (fs : FS) (q : String)
    (h : ((removeAll fs files).1).isfile q = true) : fs.isfile q = true := by
  induction files generalizing fs with
  | nil => simpa [removeAll] using h
  | cons f rest ih =>
    simp only [removeAll] at h
    exact remove_file_no_create fs f q (ih (remove_file fs f).1 h)

theorem removeAll_deletes (files : List String) (fs : FS) (p : String)
    (hp : p ∈ files) (hdel : ∀ fl, fs.lookup p = some fl → fl.deletable = true) :
    ((removeAll fs files).1).isfile p = false := by
  induction files generalizing fs with
  | nil => cases hp
  | cons f rest ih =>
    simp only [removeAll]
    by_cases hfp : f = p
    · subst hfp
      have hgone : ((remove_file fs f).1).isfile f = false := by
        unfold remove_file
        by_cases h1 : fs.isfile f = true
        · have h2 : fs.canUnlink f = true := by
            unfold FS.canUnlink
            cases hl : fs.lookup f with
            | none => unfold FS.isfile at h1; rw [hl] at h1; simp at h1
            | some fl => exact hdel fl hl
          rw [if_pos h1, if_pos h2]
          show (fs.unlink f).isfile f = false
          unfold FS.isfile
          rw [FS.lookup_unlink, if_pos rfl]
          rfl
        · rw [if_neg h1]
          show fs.isfile f = false
          cases hv : fs.isfile f
          · rfl
          · exact absurd hv h1
      cases hres : ((removeAll (remove_file fs f).1 rest).1).isfile f with
      | false => rfl
      | true =>
        have hcr := removeAll_no_create rest (remove_file fs f).1 f hres
        rw [hgone] at hcr
        exact Bool.noConfusion hcr
    · have hp2 : p ∈ rest := by
        cases hp with
        | head => exact absurd rfl hfp
        | tail _ h => exact h
      refine ih (remove_file fs f).1 hp2 (fun fl hl => hdel fl ?_)
      rw [remove_file_lookup_ne fs f p (fun hc => hfp hc.symm)] at hl
      exact hl

theorem removeAll_keeps (files : List String) (fs : FS) (p : String) (fl : FSFile)
    (hl : fs.lookup p = some fl) (hnd : fl.deletable = false) :
    ((removeAll fs files).1).lookup p = some fl := by
  induction files generalizing fs with
  | nil => simpa [removeAll] using hl
  | cons f rest ih =>
    simp only [removeAll]
    refine ih (remove_file fs f).1 ?_
    by_cases hfp : p = f
    · subst hfp
      unfold remove_file
      have h1 : fs.isfile p = true := by simp [FS.isfile, hl]
      have h2 : ¬ fs.canUnlink p = true := by simp [FS.canUnlink, hl, hnd]
      rw [if_pos h1, if_neg h2]
      exact hl
    · rw [remove_file_lookup_ne fs f p hfp]
      exact hl

theorem removeAll_logs (files : List String) (fs : FS) (p : String) (fl : FSFile)
    (hp : p ∈ files) (hl : fs.lookup p = some fl) (hnd : fl.deletable = false) :
    Effect.logError "Unable to remove file" ∈ (removeAll fs files).2 := by
  induction files generalizing fs with
  | nil => cases hp
  | cons f rest ih =>
    simp only [removeAll, List.mem_append]
    by_cases hfp : p = f
    · subst hfp
      left
      unfold remove_file
      have h1 : fs.isfile p = true := by simp [FS.isfile, hl]
      have h2 : ¬ fs.canUnlink p = true := by simp [FS.canUnlink, hl, hnd]
      rw [if_pos h1, if_neg h2]
      simp
    · cases hp with
      | head => exact absurd rfl hfp
      | tail _ hp2 =>
        right
        refine ih (remove_file fs f).1 hp2 ?_
        rw [remove_file_lookup_ne fs f p hfp]
        exact hl

/-! Lemmas about the output freshness gate. -/

theorem bypassFlag_eq (resume : Bool) (fs : FS) (f : String) :
    (if fs.isfile f then (if resume && decide (0 < fs.getsize f) then true else false)
      else false) =
      (fs.isfile f && (resume && decide (0 < fs.getsize f))) := by
  cases fs.isfile f <;> cases (resume && decide (0 < fs.getsize f)) <;> simp

theorem contains_false_eq (l : List Bool) : l.contains false = !l.all (fun b => b) := by
  induction l with
  | nil => rfl
  | cons b t ih => cases b <;> simp_all [List.contains_cons]

theorem isEmpty_map {γ δ : Type} (f : γ → δ) (l : List γ) :
    (l.map f).isEmpty = l.isEmpty := by
  cases l <;> rfl

theorem all_map_id {γ : Type} (f : γ → Bool) (l : List γ) :
    (l.map f).all (fun b => b) = l.all f := by
  induction l <;> simp_all

theorem check_outfiles_fst (resume : Bool) (fs : FS) (outfiles : List String) :
    (check_outfiles resume fs outfiles).1 =
      (!outfiles.isEmpty &&
        outfiles.all (fun f => fs.isfile f && (resume && decide (0 < fs.getsize f)))) := by
  unfold check_outfiles
  simp only [bypassFlag_eq, contains_false_eq, all_map_id, isEmpty_map]
  cases hall : outfiles.all (fun f => fs.isfile f && (resume && decide (0 < fs.getsize f))) <;>
    cases hemp : outfiles.isEmpty <;> simp [hall, hemp]

theorem check_outfiles_snd (resume : Bool) (fs : FS) (outfiles : List String)
    (h : (check_outfiles resume fs outfiles).1 = false) :
    (check_outfiles resume fs outfiles).2 = removeAll fs outfiles := by
  simp only [check_outfiles] at h ⊢
  split at h
  next hc => rw [if_pos hc]
  next hc => simp at h

/-- C2: the output freshness gate returns bypass = true iff the resume flag is
enabled, every output path refers to an existing file of size greater than
zero, and the path list is non-empty; an empty list always yields false. -/
theorem claim_C2 (resume : Bool) (fs : FS) (outfiles : List String) :
    ((check_outfiles resume fs outfiles).1 = true ↔
      (resume = true ∧ outfiles ≠ [] ∧
        ∀ f ∈ outfiles, fs.isfile f = true ∧ 0 < fs.getsize f)) ∧
    (check_outfiles resume fs []).1 = false := by
  constructor
  · rw [check_outfiles_fst]
    simp only [Bool.and_eq_true, Bool.not_eq_true', List.all_eq_true, Bool.and_eq_true,
      decide_eq_true_eq]
    constructor
    · rintro ⟨hne, hall⟩
      have hne2 : outfiles ≠ [] := by
        intro hc; rw [hc] at hne; simp at hne
      obtain ⟨f0, hf0⟩ := List.exists_mem_of_ne_nil outfiles hne2
      exact ⟨((hall f0 hf0).2).1, hne2,
        fun f hf => ⟨(hall f hf).1, ((hall f hf).2).2⟩⟩
    · rintro ⟨hres, hne, hall⟩
      refine ⟨by cases hv : outfiles <;> simp_all, ?_⟩
      exact fun f hf => ⟨(hall f hf).1, hres, (hall f hf).2⟩
  · rw [check_outfiles_fst]; simp

/-- C2 witness: a single existing non-empty output under resume bypasses. -/
theorem claim_C2_witness :
    (check_outfiles true ⟨[("a", ⟨3, true, true⟩)]⟩ ["a"]).1 = true ∧
    (check_outfiles true ⟨[("a", ⟨3, true, true⟩)]⟩ []).1 = false :=
  ⟨(claim_C2 true ⟨[("a", ⟨3, true, true⟩)]⟩ ["a"]).1.mpr
      ⟨rfl, by decide, by decide⟩,
    (claim_C2 true ⟨[("a", ⟨3, true, true⟩)]⟩ ["a"]).2⟩

/-- C5: when the gate's decision is not bypass, every declared output path
that exists as a deletable file has been deleted before the gate returns; a
path whose deletion fails survives unchanged with the failure logged and
absorbed; and with resume disabled the decision is never bypass. -/
theorem claim_C5 (resume : Bool) (fs : FS) (outfiles : List String)
    (hbp : (check_outfiles resume fs outfiles).1 = false) :
    (∀ p ∈ outfiles, ∀ fl, fs.lookup p = some fl →
      (fl.deletable = true →
        ((check_outfiles resume fs outfiles).2.1).isfile p = false) ∧
      (fl.deletable = false →
        ((check_outfiles resume fs outfiles).2.1).lookup p = some fl ∧
          Effect.logError "Unable to remove file" ∈ (check_outfiles resume fs outfiles).2.2)) ∧
    (check_outfiles false fs outfiles).1 = false := by
  have hsnd := check_outfiles_snd resume fs outfiles hbp
  constructor
  · intro p hp fl hfl
    constructor
    · intro hdel
      rw [hsnd]
      exact removeAll_deletes outfiles fs p hp
        (fun fl2 h2 => by rw [hfl] at h2; cases h2; exact hdel)
    · intro hdel
      rw [hsnd]
      exact ⟨removeAll_keeps outfiles fs p fl hfl hdel,
        removeAll_logs outfiles fs p fl hp hfl hdel⟩
  · rw [check_outfiles_fst]
    cases outfiles <;> simp

/-- C5 witness: with resume off, a deletable pre-existing output is removed
and an undeletable one survives with the failure logged. -/
theorem claim_C5_witness :
    ((check_outfiles false ⟨[("x", ⟨1, true, true⟩), ("y", ⟨2, true, false⟩)]⟩
        ["x", "y"]).2.1).isfile "x" = false ∧
    ((check_outfiles false ⟨[("x", ⟨1, true, true⟩), ("y", ⟨2, true, false⟩)]⟩
        ["x", "y"]).2.1).lookup "y" = some ⟨2, true, false⟩ ∧
    Effect.logError "Unable to remove file" ∈
      (check_outfiles false ⟨[("x", ⟨1, true, true⟩), ("y", ⟨2, true, false⟩)]⟩
        ["x", "y"]).2.2 :=
  ⟨(((claim_C5 false ⟨[("x", ⟨1, true, true⟩), ("y", ⟨2, true, false⟩)]⟩ ["x", "y"]
        (by decide)).1 "x" (by decide) ⟨1, true, true⟩ (by decide)).1 rfl),
    (((claim_C5 false ⟨[("x", ⟨1, true, true⟩), ("y", ⟨2, true, false⟩)]⟩ ["x", "y"]
        (by decide)).1 "y" (by decide) ⟨2, true, false⟩ (by decide)).2 rfl)⟩

/-! Lemmas about the parallel dispatcher. -/

theorem seqMap_ok {α β : Type} (g : α → β) (args : List α) :
    seqMap (fun a => Except.ok (g a)) args = .ok (args.map g) := by
  induction args with
  | nil => rfl
  | cons a rest ih => simp [seqMap, ih]

theorem pendingVals_coe_cons {β : Type} (w : WorkerState β) (ws : List (WorkerState β)) :
    (pendingVals (w :: ws) : Multiset β) = wval w + (pendingVals ws : Multiset β) := by
  cases w <;> simp [pendingVals, wval]

theorem pendingVals_set {β : Type} (ws : List (WorkerState β)) (i : Nat)
    (w w' : WorkerState β) (h : ws.get? i = some w) :
    (pendingVals (ws.set i w') : Multiset β) + wval w =
      (pendingVals ws : Multiset β) + wval w' := by
  induction ws generalizing i with
  | nil => exact Option.noConfusion h
  | cons x rest ih =>
    cases i with
    | zero =>
      have hx : x = w := Option.some.inj h
      subst hx
      show (pendingVals (w' :: rest) : Multiset β) + wval x =
        (pendingVals (x :: rest) : Multiset β) + wval w'
      rw [pendingVals_coe_cons, pendingVals_coe_cons]
      abel
    | succ n =>
      show (pendingVals (x :: rest.set n w') : Multiset β) + wval w =
        (pendingVals (x :: rest) : Multiset β) + wval w'
      rw [pendingVals_coe_cons, pendingVals_coe_cons, add_assoc, ih n h, ← add_assoc]

theorem lockStep_pull {α β : Type} (f : α → Except PyExc β) (s : QueueState α β)
    (i : Nat) (a : α) (rest : List α)
    (hw : s.workers.get? i = some .idle) (hq : s.queue = a :: rest) :
    lockStep f s i =
      (match f a with
        | Except.ok b =>
          { s with queue := rest, workers := s.workers.set i (WorkerState.pending b) }
        | Except.error _ =>
          { s with queue := rest, workers := s.workers.set i WorkerState.dead }) := by
  unfold lockStep
  rw [hw, hq]

theorem lockStep_pull_ok {α β : Type} (f : α → Except PyExc β) (s : QueueState α β)
    (i : Nat) (a : α) (rest : List α) (b : β)
    (hw : s.workers.get? i = some .idle) (hq : s.queue = a :: rest) (hf : f a = .ok b) :
    lockStep f s i =
      { s with queue := rest, workers := s.workers.set i (.pending b) } := by
  rw [lockStep_pull f s i a rest hw hq, hf]

theorem lockStep_pull_err {α β : Type} (f : α → Except PyExc β) (s : QueueState α β)
    (i : Nat) (a : α) (rest : List α) (e : PyExc)
    (hw : s.workers.get? i = some .idle) (hq : s.queue = a :: rest) (hf : f a = .error e) :
    lockStep f s i = { s with queue := rest, workers := s.workers.set i .dead } := by
  rw [lockStep_pull f s i a rest hw hq, hf]

theorem lockStep_put {α β : Type} (f : α → Except PyExc β) (s : QueueState α β)
    (i : Nat) (b : β) (hw : s.workers.get? i = some (.pending b)) :
    lockStep f s i =
      { s with workers := s.workers.set i .idle, results := s.results ++ [b] } := by
  unfold lockStep
  rw [hw]

theorem acct_lockStep {α β : Type} (g : α → β) (s : QueueState α β) (i : Nat) :
    acct g (lockStep (fun a => Except.ok (g a)) s i) = acct g s := by
  cases hw : s.workers.get? i with
  | none =>
    unfold lockStep
    rw [hw]
  | some w =>
    cases w with
    | dead =>
      unfold lockStep
      rw [hw]
    | pending b =>
      rw [lockStep_put _ s i b hw]
      have hpv := pendingVals_set s.workers i (.pending b) .idle hw
      simp only [wval, add_zero] at hpv
      simp only [acct]
      rw [← hpv]
      have hres : ((s.results ++ [b] : List β) : Multiset β) =
          (s.results : Multiset β) + {b} := rfl
      rw [hres]
      abel
    | idle =>
      cases hq : s.queue with
      | nil =>
        unfold lockStep
        rw [hw, hq]
      | cons a rest =>
        rw [lockStep_pull_ok _ s i a rest (g a) hw hq rfl]
        have hpv := pendingVals_set s.workers i .idle (.pending (g a)) hw
        simp only [wval, add_zero] at hpv
        simp only [acct, hq]
        rw [hpv]
        have hmap : (((a :: rest).map g : List β) : Multiset β) =
            {g a} + ((rest.map g : List β) : Multiset β) := by
          simp [Multiset.singleton_add]
        rw [hmap]
        abel

theorem acct_lockRun {α β : Type} (g : α → β) (s : QueueState α β) (sched : List Nat) :
    acct g (lockRun (fun a => Except.ok (g a)) s sched) = acct g s := by
  induction sched generalizing s with
  | nil => rfl
  | cons i rest ih =>
    show acct g (lockRun _ (lockStep _ s i) rest) = acct g s
    rw [ih (lockStep _ s i), acct_lockStep]

theorem pendingVals_nil_of_all {β : Type} (ws : List (WorkerState β))
    (h : ws.all (fun w => !w.isPending) = true) : pendingVals ws = [] := by
  induction ws with
  | nil => rfl
  | cons w rest ih =>
    simp only [List.all_cons, Bool.and_eq_true] at h
    cases w with
    | idle => exact ih h.2
    | dead => exact ih h.2
    | pending b => simp [WorkerState.isPending] at h

theorem pendingVals_replicate {β : Type} (n : Nat) :
    pendingVals (List.replicate n (WorkerState.idle : WorkerState β)) = [] := by
  induction n with
  | zero => rfl
  | succ m ih => simp [List.replicate, pendingVals, ih]

theorem cm_lock_unfold {α β : Type} (threads : Nat) (args : List α)
    (f : α → Except PyExc β) (sched : List Nat) (ht : 1 < threads) :
    command_multiprocessing threads args f true sched =
      lockDispatch threads args f sched := by
  simp [command_multiprocessing, ht]

theorem cm_seqlike_unfold {α β : Type} (threads : Nat) (args : List α)
    (f : α → Except PyExc β) (lock : Bool) (sched : List Nat)
    (h : lock = false ∨ ¬ 1 < threads) :
    command_multiprocessing threads args f lock sched = wrapDispatch (seqMap f args) := by
  by_cases ht : 1 < threads
  · rcases h with h | h
    · simp [command_multiprocessing, ht, h]
    · exact absurd ht h
  · simp [command_multiprocessing, ht]

/-- C3: whenever a persistent-worker dispatch returns to its caller, it
returns exactly one result per submitted invocation: as many results as
arguments, forming a permutation of the pointwise results, for every worker
count and every interleaving of the workers. -/
theorem claim_C3 {α β : Type} (threads : Nat) (g : α → β) (args : List α)
    (sched : List Nat) (rs : List β)
    (h : command_multiprocessing threads args (fun a => Except.ok (g a)) true sched =
      .results rs) :
    rs.length = args.length ∧ rs.Perm (args.map g) := by
  have hperm : rs.Perm (args.map g) := by
    by_cases ht : 1 < threads
    · rw [cm_lock_unfold threads args _ sched ht] at h
      unfold lockDispatch at h
      split at h
      next hcond =>
        have hrs : (lockRun (fun a => Except.ok (g a)) (initState β threads args) sched).results
            = rs := DispatchOutcome.results.inj h
        have hd := (Bool.and_eq_true _ _).mp hcond
        have hdr := (Bool.and_eq_true _ _).mp hd.1
        have hq : (lockRun (fun a => Except.ok (g a)) (initState β threads args) sched).queue
            = [] := List.isEmpty_iff.mp hdr.1
        have hpv : pendingVals
            (lockRun (fun a => Except.ok (g a)) (initState β threads args) sched).workers
            = [] := pendingVals_nil_of_all _ hdr.2
        have hacct := acct_lockRun g (initState β threads args) sched
        have hinit : acct g (initState β threads args) = ((args.map g : List β) : Multiset β) := by
          simp [acct, initState, pendingVals_replicate]
        rw [hinit] at hacct
        simp only [acct, hq, hpv] at hacct
        simp only [List.map_nil, Multiset.coe_nil, zero_add] at hacct
        rw [hrs] at hacct
        exact Multiset.coe_eq_coe.mp hacct
      next => exact DispatchOutcome.noConfusion h
    · rw [cm_seqlike_unfold threads args _ true sched (Or.inr ht), seqMap_ok] at h
      have hinj : args.map g = rs := by simpa [wrapDispatch] using h
      subst hinj
      exact List.Perm.refl _
  exact ⟨by rw [hperm.length_eq, List.length_map], hperm⟩

/-- C3 witness: two workers over two invocations under a concrete
interleaving return both results. -/
theorem claim_C3_witness :
    [2, 3].length = [1, 2].length ∧ List.Perm [2, 3] ([1, 2].map (fun a => a + 1)) :=
  claim_C3 2 (fun a => a + 1) [1, 2] [0, 0, 0, 0] [2, 3] (by decide)

/-- C6: a dispatch with at most one worker executes the function on each
argument sequentially in list order and returns exactly the sequential map. -/
theorem claim_C6 {α β : Type} (threads : Nat) (g : α → β) (args : List α)
    (h : threads ≤ 1) :
    command_multiprocessing threads args (fun a => Except.ok (g a)) false [] =
      .results (args.map g) := by
  have ht : ¬ 1 < threads := by omega
  simp [command_multiprocessing, ht, seqMap_ok, wrapDispatch]

/-- C6 witness: a one-worker dispatch returns the in-order map. -/
theorem claim_C6_witness :
    command_multiprocessing 1 [1, 2, 3] (fun a : Nat => Except.ok (a * 2)) false [] =
      .results ([1, 2, 3].map (fun a => a * 2)) :=
  claim_C6 1 (fun a => a * 2) [1, 2, 3] (by decide)

theorem all_set_of_all {γ : Type} (p : γ → Bool) (l : List γ) (i : Nat) (x : γ)
    (hl : l.all p = true) (hx : p x = true) : (l.set i x).all p = true := by
  induction l generalizing i with
  | nil => rfl
  | cons y rest ih =>
    simp only [List.all_cons, Bool.and_eq_true] at hl
    cases i with
    | zero => simp [List.set, hx, hl.2]
    | succ n => simp [List.set, hl.1, ih n hl.2]

theorem lockRun_allFail {α β : Type} (f : α → Except PyExc β)
    (hf : ∀ a, (f a).isOk = false) (sched : List Nat) (s : QueueState α β)
    (hres : s.results = []) (hw : s.workers.all (fun w => !w.isPending) = true) :
    (lockRun f s sched).results = [] ∧
      (lockRun f s sched).workers.all (fun w => !w.isPending) = true := by
  induction sched generalizing s with
  | nil => exact ⟨hres, hw⟩
  | cons i rest ih =>
    have hstep : (lockStep f s i).results = [] ∧
        (lockStep f s i).workers.all (fun w => !w.isPending) = true := by
      cases hg : s.workers.get? i with
      | none =>
        have hid : lockStep f s i = s := by unfold lockStep; rw [hg]
        rw [hid]
        exact ⟨hres, hw⟩
      | some w =>
        cases w with
        | dead =>
          have hid : lockStep f s i = s := by unfold lockStep; rw [hg]
          rw [hid]
          exact ⟨hres, hw⟩
        | pending b =>
          have hmem : WorkerState.pending b ∈ s.workers := List.get?_mem hg
          have hall := (List.all_eq_true.mp hw) _ hmem
          simp [WorkerState.isPending] at hall
        | idle =>
          cases hq : s.queue with
          | nil =>
            have hid : lockStep f s i = s := by unfold lockStep; rw [hg, hq]
            rw [hid]
            exact ⟨hres, hw⟩
          | cons a rest2 =>
            cases hfa : f a with
            | ok b =>
              have hok := hf a
              rw [hfa] at hok
              exact Bool.noConfusion hok
            | error e =>
              rw [lockStep_pull_err f s i a rest2 e hg hq hfa]
              exact ⟨hres, all_set_of_all _ _ i _ hw rfl⟩
    exact ih _ hstep.1 hstep.2

/-- C1 (failing-input evaluation): under the persistent-worker strategy a
worker whose invocation raises `CalledProcessError` dies in the child
process; the exception never reaches the dispatcher's except clause, so for
every interleaving the dispatch neither aborts fatally nor returns — while
the same failing invocation under the sequential strategy does exit fatally
with the dispatcher's message. -/
theorem claim_C1 :
    (∀ sched : List Nat, command_multiprocessing 2 [0] raiseCPE true sched = .blocked) ∧
    command_multiprocessing 1 [0] raiseCPE false [] = .fatalExit dispatchFatalMessage := by
  constructor
  · intro sched
    have h := lockRun_allFail raiseCPE (fun a => rfl) sched (initState Nat 2 [0]) rfl
      (by decide)
    simp [command_multiprocessing, lockDispatch, h.1]
  · decide

/-- C10 counterexample: an invocation raising a `KeyError` (a type outside the
except clause) in a persistent-worker dispatch neither propagates to the
caller nor triggers the fatal handler — the dispatch is left blocked. -/
theorem claim_C10_counterexample :
    command_multiprocessing 2 [0] raiseKeyError true [0] = .blocked ∧
    (DispatchOutcome.blocked : DispatchOutcome Nat) ≠ .uncaught (.other "KeyError") ∧
    (DispatchOutcome.blocked : DispatchOutcome Nat) ≠ .fatalExit dispatchFatalMessage := by
  exact ⟨by decide, by decide, by decide⟩

/-- C10 (amended): in the sequential and pool paths, an exception raised by
the invocations becomes the fatal process exit exactly when it is an
`EnvironmentError`, `ValueError` or `CalledProcessError`, and propagates to
the caller uncaught otherwise; in the persistent-worker path no worker
exception ever reaches the fatal handler. -/
theorem claim_C10 {α β : Type} (threads : Nat) (args : List α)
    (f : α → Except PyExc β) (sched : List Nat) (e : PyExc)
    (h : seqMap f args = .error e) :
    (command_multiprocessing threads args f false sched =
      if dispatcherCatches e then .fatalExit dispatchFatalMessage else .uncaught e) ∧
    (1 < threads → ∀ m, command_multiprocessing threads args f true sched ≠ .fatalExit m) := by
  constructor
  · by_cases ht : 1 < threads
    · rw [cm_seqlike_unfold threads args f false sched (Or.inl rfl), h, wrapDispatch]
    · rw [cm_seqlike_unfold threads args f false sched (Or.inr ht), h, wrapDispatch]
  · intro ht m
    rw [cm_lock_unfold threads args f sched ht]
    unfold lockDispatch
    split <;> simp

/-- C10 witness: a raised `KeyError` propagates uncaught from a sequential
dispatch and causes no fatal exit in a persistent-worker dispatch. -/
theorem claim_C10_witness :
    (command_multiprocessing 2 [0] raiseKeyError false [] =
      if dispatcherCatches (.other "KeyError") then .fatalExit dispatchFatalMessage
      else .uncaught (.other "KeyError")) ∧
    command_multiprocessing 2 [0] raiseKeyError true [] ≠ .fatalExit dispatchFatalMessage :=
  ⟨(claim_C10 2 [0] raiseKeyError [] (.other "KeyError") (by decide)).1,
    (claim_C10 2 [0] raiseKeyError [] (.other "KeyError") (by decide)).2
      (by decide) dispatchFatalMessage⟩

/-! Lemmas about the single invocation runner. -/

theorem file_exists_readable_ok (fs : FS) (f : String)
    (h1 : fs.isfile f = true) (h2 : fs.readAccess f = true) :
    file_exists_readable fs f =
      (.ok (), [Effect.logDebug ("Check file exists and is readable: " ++ f)]) := by
  simp [file_exists_readable, h1, h2]

theorem file_exists_readable_err (fs : FS) (f : String)
    (hf : ¬ (fs.isfile f = true ∧ fs.readAccess f = true)) :
    file_exists_readable fs f =
      (.error .ioError,
        [Effect.logDebug ("Check file exists and is readable: " ++ f),
         .logCritical (if fs.isfile f then "Not able to read file " ++ f
            else "Can not find file " ++ f),
         .consolePrint ("CRITICAL ERROR: " ++
            (if fs.isfile f then "Not able to read file " ++ f
              else "Can not find file " ++ f))]) := by
  by_cases h1 : fs.isfile f = true
  · have h2 : fs.readAccess f = false := by
      cases hv : fs.readAccess f
      · rfl
      · exact absurd ⟨h1, hv⟩ hf
    simp [file_exists_readable, h1, h2]
  · have h1f : fs.isfile f = false := by
      cases hv : fs.isfile f
      · rfl
      · exact absurd hv h1
    simp [file_exists_readable, h1f]

theorem checkFilesLoop_ok (label : String) (fs : FS) (files : List String)
    (h : ∀ f ∈ files, fs.isfile f = true ∧ fs.readAccess f = true) :
    checkFilesLoop label fs files = (.ok (), checkFilesEffects label files) := by
  induction files with
  | nil => rfl
  | cons f rest ih =>
    obtain ⟨h1, h2⟩ := h f (List.mem_cons_self f rest)
    rw [checkFilesLoop, file_exists_readable_ok fs f h1 h2,
      ih (fun g hg => h g (List.mem_cons_of_mem f hg))]
    rfl

theorem checkFilesLoop_err (label : String) (fs : FS) (pre post : List String) (f : String)
    (hpre : ∀ g ∈ pre, fs.isfile g = true ∧ fs.readAccess g = true)
    (hf : ¬ (fs.isfile f = true ∧ fs.readAccess f = true)) :
    checkFilesLoop label fs (pre ++ f :: post) =
      (.error .ioError,
        checkFilesEffects label pre ++
          (Effect.logDebug ("Check " ++ label ++ " file exists and is readable: " ++ f) ::
            [Effect.logDebug ("Check file exists and is readable: " ++ f),
             .logCritical (if fs.isfile f then "Not able to read file " ++ f
                else "Can not find file " ++ f),
             .consolePrint ("CRITICAL ERROR: " ++
                (if fs.isfile f then "Not able to read file " ++ f
                  else "Can not find file " ++ f))])) := by
  induction pre with
  | nil =>
    rw [List.nil_append, checkFilesLoop, file_exists_readable_err fs f hf]
    rfl
  | cons g rest ih =>
    obtain ⟨h1, h2⟩ := hpre g (List.mem_cons_self g rest)
    rw [List.cons_append, checkFilesLoop, file_exists_readable_ok fs g h1 h2,
      ih (fun x hx => hpre x (List.mem_cons_of_mem g hx))]
    rfl

theorem checkFilesEffects_noSpawn (label : String) (files : List String) :
    (checkFilesEffects label files).all (fun e => !e.isSpawn) = true := by
  induction files with
  | nil => rfl
  | cons f rest ih =>
    rw [checkFilesEffects, List.all_cons, List.all_cons, ih]
    rfl

theorem checkFilesEffects_console (label : String) (files : List String) :
    consoleOf (checkFilesEffects label files) = [] := by
  induction files with
  | nil => rfl
  | cons f rest ih => simp [checkFilesEffects, consoleOf] at ih ⊢; exact ih

theorem check_outfiles_bypass (fs : FS) (outfiles : List String) (hne : outfiles ≠ [])
    (hout : ∀ p ∈ outfiles, fs.isfile p = true ∧ 0 < fs.getsize p) :
    check_outfiles true fs outfiles = (true, fs, []) := by
  have h1 : (check_outfiles true fs outfiles).1 = true := by
    rw [check_outfiles_fst]
    have hall : outfiles.all
        (fun f => fs.isfile f && (true && decide (0 < fs.getsize f))) = true := by
      rw [List.all_eq_true]
      intro f hfm
      simp [(hout f hfm).1, (hout f hfm).2]
    have hemp : outfiles.isEmpty = false := by
      cases outfiles
      · exact absurd rfl hne
      · rfl
    rw [hall, hemp]
    rfl
  simp only [check_outfiles] at h1 ⊢
  split
  next hc =>
    rw [if_pos hc] at h1
    exact Bool.noConfusion h1
  next hc => rfl

/-- C8: an invocation whose executable does not resolve on the search path
fails with `EnvironmentError` before anything else happens: the file system
is untouched (no output deleted or created), no child process is spawned, and
the only effects are the console diagnostic naming the missing tool and the
matching critical log entry. -/
theorem claim_C8 (env : Env) (resume verbose : Bool) (runner : Runner) (fs : FS)
    (exe : String) (args infiles outfiles : List String) (so si : Option String)
    (hexe : find_exe_in_path env exe = false) :
    execute_command env resume verbose runner fs exe args infiles outfiles so si =
      (.error .envError, fs,
        [.consolePrint ("CRITICAL ERROR: " ++ ("Can not find executable " ++ exe)),
         .logCritical ("Can not find executable " ++ exe)]) := by
  simp [execute_command, hexe]

/-- C8 witness: a concrete unresolvable executable fails with the
environment error and an unchanged file system. -/
theorem claim_C8_witness :
    find_exe_in_path ⟨["/bin"], []⟩ "tool" = false ∧
    execute_command ⟨["/bin"], []⟩ false false idleRunner ⟨[("o", ⟨4, true, true⟩)]⟩
        "tool" ["-v"] [] ["o"] none none =
      (.error .envError, ⟨[("o", ⟨4, true, true⟩)]⟩,
        [.consolePrint ("CRITICAL ERROR: " ++ ("Can not find executable " ++ "tool")),
         .logCritical ("Can not find executable " ++ "tool")]) :=
  ⟨by decide,
    claim_C8 ⟨["/bin"], []⟩ false false idleRunner ⟨[("o", ⟨4, true, true⟩)]⟩
      "tool" ["-v"] [] ["o"] none none (by decide)⟩

/-- C4 counterexample: with a non-empty output list whose single path
pre-exists with positive size and resume enabled, `execute_command` still
fails (with `EnvironmentError`) rather than returning normally, because the
executable does not resolve on the search path. -/
theorem claim_C4_counterexample :
    FS.isfile ⟨[("out", ⟨1, true, true⟩)]⟩ "out" = true ∧
    0 < FS.getsize ⟨[("out", ⟨1, true, true⟩)]⟩ "out" ∧
    (execute_command ⟨[], []⟩ true false idleRunner ⟨[("out", ⟨1, true, true⟩)]⟩
        "tool" [] [] ["out"] none none).1 = .error .envError := by
  exact ⟨by decide, by decide, by decide⟩

/-- C4 (amended): for an invocation whose executable resolves and whose
inputs are all readable, with a non-empty output list of pre-existing
non-empty outputs and resume enabled, the runner returns normally, leaves the
file system untouched, spawns no child process, and prints only the bypass
notice. -/
theorem claim_C4 (env : Env) (verbose : Bool) (runner : Runner) (fs : FS)
    (exe : String) (args infiles outfiles : List String) (so si : Option String)
    (hexe : find_exe_in_path env exe = true)
    (hin : ∀ g ∈ infiles, fs.isfile g = true ∧ fs.readAccess g = true)
    (hne : outfiles ≠ [])
    (hout : ∀ p ∈ outfiles, fs.isfile p = true ∧ 0 < fs.getsize p) :
    (execute_command env true verbose runner fs exe args infiles outfiles so si).1 =
      .ok () ∧
    (execute_command env true verbose runner fs exe args infiles outfiles so si).2.1 = fs ∧
    noSpawn (execute_command env true verbose runner fs exe args infiles outfiles so si).2.2 =
      true ∧
    consoleOf (execute_command env true verbose runner fs exe args infiles outfiles so si).2.2 =
      [if verbose then "Bypass: \n" ++ exe ++ " " ++ String.intercalate " " args ++ "\n"
        else "Bypass\n"] := by
  have hfull : execute_command env true verbose runner fs exe args infiles outfiles so si =
      (.ok (), fs, checkFilesEffects "input" infiles ++
        [.consolePrint (if verbose then
            "Bypass: \n" ++ exe ++ " " ++ String.intercalate " " args ++ "\n"
          else "Bypass\n")]) := by
    rw [execute_command, if_pos hexe, checkFilesLoop_ok "input" fs infiles hin,
      check_outfiles_bypass fs outfiles hne hout]
    simp
  rw [hfull]
  refine ⟨rfl, rfl, ?_, ?_⟩
  · simp only [noSpawn, List.all_append]
    rw [checkFilesEffects_noSpawn]
    rfl
  · simp only [consoleOf, List.filterMap_append]
    rw [show List.filterMap _ (checkFilesEffects "input" infiles) =
      consoleOf (checkFilesEffects "input" infiles) from rfl, checkFilesEffects_console]
    rfl

/-- C4 witness: a concrete bypassable invocation returns normally with only
the bypass notice. -/
theorem claim_C4_witness :
    find_exe_in_path ⟨["/bin"], [("/bin/tool", true)]⟩ "tool" = true ∧
    (execute_command ⟨["/bin"], [("/bin/tool", true)]⟩ true false idleRunner
        ⟨[("in", ⟨5, true, true⟩), ("out", ⟨7, true, true⟩)]⟩
        "tool" ["x"] ["in"] ["out"] none none).1 = .ok () ∧
    (execute_command ⟨["/bin"], [("/bin/tool", true)]⟩ true false idleRunner
        ⟨[("in", ⟨5, true, true⟩), ("out", ⟨7, true, true⟩)]⟩
        "tool" ["x"] ["in"] ["out"] none none).2.1 =
      ⟨[("in", ⟨5, true, true⟩), ("out", ⟨7, true, true⟩)]⟩ ∧
    noSpawn (execute_command ⟨["/bin"], [("/bin/tool", true)]⟩ true false idleRunner
        ⟨[("in", ⟨5, true, true⟩), ("out", ⟨7, true, true⟩)]⟩
        "tool" ["x"] ["in"] ["out"] none none).2.2 = true ∧
    consoleOf (execute_command ⟨["/bin"], [("/bin/tool", true)]⟩ true false idleRunner
        ⟨[("in", ⟨5, true, true⟩), ("out", ⟨7, true, true⟩)]⟩
        "tool" ["x"] ["in"] ["out"] none none).2.2 =
      [if false then "Bypass: \n" ++ "tool" ++ " " ++ String.intercalate " " ["x"] ++ "\n"
        else "Bypass\n"] :=
  ⟨by decide,
    claim_C4 ⟨["/bin"], [("/bin/tool", true)]⟩ false idleRunner
      ⟨[("in", ⟨5, true, true⟩), ("out", ⟨7, true, true⟩)]⟩
      "tool" ["x"] ["in"] ["out"] none none (by decide) (by decide) (by decide) (by decide)⟩

/-- C7 counterexample: when the executable does not resolve, a missing input
path is not reported: the runner fails with `EnvironmentError` from the
executable check instead of `IOError` from the input check. -/
theorem claim_C7_counterexample :
    FS.isfile (⟨[]⟩ : FS) "in" = false ∧
    (execute_command ⟨[], []⟩ false false idleRunner ⟨[]⟩ "tool" [] ["in"] [] none
        none).1 = .error .envError ∧
    (execute_command ⟨[], []⟩ false false idleRunner ⟨[]⟩ "tool" [] ["in"] [] none
        none).1 ≠ .error .ioError := by
  exact ⟨by decide, by decide, by decide⟩

/-- C7 (amended): for every invocation whose executable resolves, each input
path is verified readable before the bypass decision is consulted: the first
unreadable input aborts the run with `IOError`, a console diagnostic naming
that path, no file system change (no output deleted), and no spawned child —
whatever the resume flag and output state are. -/
theorem claim_C7 (env : Env) (resume verbose : Bool) (runner : Runner) (fs : FS)
    (exe : String) (args : List String) (pre post outfiles : List String) (f : String)
    (so si : Option String)
    (hexe : find_exe_in_path env exe = true)
    (hpre : ∀ g ∈ pre, fs.isfile g = true ∧ fs.readAccess g = true)
    (hf : ¬ (fs.isfile f = true ∧ fs.readAccess f = true)) :
    (execute_command env resume verbose runner fs exe args (pre ++ f :: post) outfiles
        so si).1 = .error .ioError ∧
    (execute_command env resume verbose runner fs exe args (pre ++ f :: post) outfiles
        so si).2.1 = fs ∧
    Effect.consolePrint ("CRITICAL ERROR: " ++
        (if fs.isfile f then "Not able to read file " ++ f else "Can not find file " ++ f)) ∈
      (execute_command env resume verbose runner fs exe args (pre ++ f :: post) outfiles
        so si).2.2 ∧
    noSpawn (execute_command env resume verbose runner fs exe args (pre ++ f :: post)
        outfiles so si).2.2 = true := by
  have hfull : execute_command env resume verbose runner fs exe args (pre ++ f :: post)
      outfiles so si =
      (.error .ioError, fs,
        checkFilesEffects "input" pre ++
          (Effect.logDebug ("Check " ++ "input" ++ " file exists and is readable: " ++ f) ::
            [Effect.logDebug ("Check file exists and is readable: " ++ f),
             .logCritical (if fs.isfile f then "Not able to read file " ++ f
                else "Can not find file " ++ f),
             .consolePrint ("CRITICAL ERROR: " ++
                (if fs.isfile f then "Not able to read file " ++ f
                  else "Can not find file " ++ f))])) := by
    rw [execute_command, if_pos hexe, checkFilesLoop_err "input" fs pre post f hpre hf]
  rw [hfull]
  refine ⟨rfl, rfl, ?_, ?_⟩
  · simp
  · simp only [noSpawn, List.all_append]
    rw [checkFilesEffects_noSpawn]
    simp [Effect.isSpawn]

/-- C7 witness: with a resolvable executable, a missing input aborts with
`IOError` and its diagnostic, leaving the file system unchanged, even though
the single output pre-exists non-empty and resume is on. -/
theorem claim_C7_witness :
    find_exe_in_path ⟨["/bin"], [("/bin/tool", true)]⟩ "tool" = true ∧
    (execute_command ⟨["/bin"], [("/bin/tool", true)]⟩ true false idleRunner
        ⟨[("good", ⟨1, true, true⟩), ("out", ⟨9, true, true⟩)]⟩
        "tool" [] (["good"] ++ "bad" :: []) ["out"] none none).1 = .error .ioError ∧
    (execute_command ⟨["/bin"], [("/bin/tool", true)]⟩ true false idleRunner
        ⟨[("good", ⟨1, true, true⟩), ("out", ⟨9, true, true⟩)]⟩
        "tool" [] (["good"] ++ "bad" :: []) ["out"] none none).2.1 =
      ⟨[("good", ⟨1, true, true⟩), ("out", ⟨9, true, true⟩)]⟩ :=
  ⟨by decide,
    ((claim_C7 ⟨["/bin"], [("/bin/tool", true)]⟩ true false idleRunner
      ⟨[("good", ⟨1, true, true⟩), ("out", ⟨9, true, true⟩)]⟩
      "tool" [] ["good"] [] ["out"] "bad" none none (by decide) (by decide) (by decide))).1,
    ((claim_C7 ⟨["/bin"], [("/bin/tool", true)]⟩ true false idleRunner
      ⟨[("good", ⟨1, true, true⟩), ("out", ⟨9, true, true⟩)]⟩
      "tool" [] ["good"] [] ["out"] "bad" none none (by decide) (by decide) (by decide))).2.1⟩

/-! Lemmas about the sequence chunker. -/

theorem breakLoop_join (k : Nat) (ls : List String) :
    ∀ (cur : List String) (cnt : Nat), (breakLoop k cur cnt ls).flatten = cur ++ ls := by
  induction ls with
  | nil => intro cur cnt; simp [breakLoop]
  | cons l ls ih =>
    intro cur cnt
    by_cases hH : isHeader l = true
    · by_cases hc : (cnt == k) = true
      · simp [breakLoop, hH, hc, ih]
      · simp [breakLoop, hH, hc, ih]
    · simp [breakLoop, hH, ih]

theorem breakLoop_length (k : Nat) (ls : List String) :
    ∀ (cur : List String) (cnt : Nat),
      (breakLoop k cur cnt ls).length = 1 + splits k cnt ls := by
  induction ls with
  | nil => intro cur cnt; rfl
  | cons l ls ih =>
    intro cur cnt
    by_cases hH : isHeader l = true
    · by_cases hc : (cnt == k) = true
      · simp [breakLoop, splits, hH, hc, ih]
        omega
      · simp [breakLoop, splits, hH, hc, ih]
    · simp [breakLoop, splits, hH, ih]

theorem sub_add_div (h m k : Nat) (hm : m < k) :
    (h - m + m) / k = h / k := by
  rcases Nat.le_total m h with hle | hle
  · have : h - m + m = h := by omega
    rw [this]
  · have : h - m + m = m := by omega
    rw [this, Nat.div_eq_of_lt hm, Nat.div_eq_of_lt (by omega)]

theorem splits_closed (k : Nat) (hk : 0 < k) (ls : List String) :
    ∀ cnt : Nat, cnt ≤ k →
      splits k cnt ls = (countHeaders ls - (k - cnt) + (k - 1)) / k := by
  induction ls with
  | nil =>
    intro cnt hcnt
    have hz : countHeaders [] - (k - cnt) + (k - 1) = k - 1 := by
      simp [countHeaders]
    rw [hz, Nat.div_eq_of_lt (by omega)]
    rfl
  | cons l ls ih =>
    intro cnt hcnt
    by_cases hH : isHeader l = true
    · have hheads : countHeaders (l :: ls) = 1 + countHeaders ls := by
        simp [countHeaders, hH]
      by_cases hc : (cnt == k) = true
      · have hck : cnt = k := by simpa using hc
        rw [splits, if_pos hH, if_pos hc, ih 1 (by omega), hheads, hck]
        have hnum1 : countHeaders ls - (k - 1) + (k - 1) =
            countHeaders ls - (k - 1) + (k - 1) := rfl
        rw [sub_add_div (countHeaders ls) (k - 1) k (by omega)]
        have hnum2 : 1 + countHeaders ls - (k - k) + (k - 1) = countHeaders ls + k := by
          omega
        rw [hnum2, Nat.add_div_right _ hk]
        omega
      · have hck : ¬ cnt = k := fun hcc => hc (by rw [hcc]; simp)
        rw [splits, if_pos hH, if_neg hc, ih (cnt + 1) (by omega), hheads]
        have hnum : 1 + countHeaders ls - (k - cnt) + (k - 1) =
            countHeaders ls - (k - (cnt + 1)) + (k - 1) := by
          omega
        rw [hnum]
    · have hheads : countHeaders (l :: ls) = countHeaders ls := by
        simp [countHeaders, hH]
      rw [splits, if_neg hH, ih cnt hcnt, hheads]

theorem break_up_length (lines : List String) (k : Nat) (hk : 0 < k) :
    (break_up_fasta_file lines k).length =
      if countHeaders lines = 0 then 1 else (countHeaders lines + k - 1) / k := by
  rw [break_up_fasta_file, breakLoop_length, splits_closed k hk lines 0 (by omega)]
  by_cases hh : countHeaders lines = 0
  · rw [if_pos hh, hh]
    have : 0 - (k - 0) + (k - 1) = k - 1 := by omega
    rw [this, Nat.div_eq_of_lt (by omega)]
  · rw [if_neg hh]
    have h1 : 0 < countHeaders lines := Nat.pos_of_ne_zero hh
    have hnum : countHeaders lines + k - 1 = (countHeaders lines - 1) + k := by omega
    rw [hnum, Nat.add_div_right _ hk]
    have hnum2 : countHeaders lines - (k - 0) + (k - 1) =
        (countHeaders lines - 1) - (k - 1) + (k - 1) := by omega
    rw [hnum2, sub_add_div (countHeaders lines - 1) (k - 1) k (by omega)]
    omega

theorem parseState_foldr_init (r0 : List (List String)) (A : List String) :
    A.foldr parseStep ([], r0) = ((parseState A).1, (parseState A).2 ++ r0) := by
  induction A with
  | nil => simp [parseState]
  | cons a A ih =>
    rw [List.foldr_cons, ih]
    show parseStep a ((parseState A).1, (parseState A).2 ++ r0) =
      ((parseState (a :: A)).1, (parseState (a :: A)).2 ++ r0)
    have hs : parseState (a :: A) = parseStep a (parseState A) := rfl
    rw [hs]
    unfold parseStep
    by_cases hH : isHeader a = true
    · simp [hH]
    · simp [hH]

theorem parseRecords_split (A : List String) (b : String) (B : List String)
    (hb : isHeader b = true) :
    parseRecords (A ++ b :: B) = parseRecords A ++ parseRecords (b :: B) := by
  show (parseState (A ++ b :: B)).2 = (parseState A).2 ++ (parseState (b :: B)).2
  have hB : parseState (b :: B) = ([], (parseState (b :: B)).2) := by
    have hs : parseState (b :: B) = parseStep b (parseState B) := rfl
    rw [hs]
    unfold parseStep
    simp [hb]
  have happ : parseState (A ++ b :: B) = A.foldr parseStep (parseState (b :: B)) := by
    show (A ++ b :: B).foldr parseStep ([], []) = _
    rw [List.foldr_append]
    rfl
  rw [happ, hB, parseState_foldr_init]

theorem breakLoop_records (k : Nat) (ls : List String) :
    ∀ (cur : List String) (cnt : Nat),
      ((breakLoop k cur cnt ls).map parseRecords).flatten = parseRecords (cur ++ ls) := by
  induction ls with
  | nil => intro cur cnt; simp [breakLoop]
  | cons l ls ih =>
    intro cur cnt
    by_cases hH : isHeader l = true
    · by_cases hc : (cnt == k) = true
      · rw [breakLoop, if_pos hH, if_pos hc]
        rw [List.map_cons, List.flatten_cons, ih [l] 1]
        rw [show ([l] ++ ls) = l :: ls from rfl]
        rw [parseRecords_split cur l ls hH]
      · rw [breakLoop, if_pos hH, if_neg hc, ih (cur ++ [l]) (cnt + 1)]
        rw [List.append_assoc]
        rfl
    · rw [breakLoop, if_neg hH, ih (cur ++ [l]) cnt]
      rw [List.append_assoc]
      rfl

theorem parseRecords_length (ls : List String) :
    (parseRecords ls).length = countHeaders ls := by
  show (parseState ls).2.length = countHeaders ls
  induction ls with
  | nil => rfl
  | cons l ls ih =>
    have hs : parseState (l :: ls) = parseStep l (parseState ls) := rfl
    rw [hs]
    unfold parseStep countHeaders
    by_cases hH : isHeader l = true
    · simp [hH, ih]
      omega
    · simp [hH, ih]

/-- C9: chunking a file with R records into chunks of at most k records
yields one chunk when R = 0 and otherwise the rounded-up R / k chunks; the
chunk files concatenate (line for line, hence record for record, in creation
order) back to the source, and the records of the chunks, concatenated in
list order, are exactly the records of the source — so every record lands in
exactly one chunk. -/
theorem claim_C9 (lines : List String) (k : Nat) (hk : 0 < k) :
    (break_up_fasta_file lines k).length =
      (if (parseRecords lines).length = 0 then 1
        else ((parseRecords lines).length + k - 1) / k) ∧
    (break_up_fasta_file lines k).flatten = lines ∧
    ((break_up_fasta_file lines k).map parseRecords).flatten = parseRecords lines := by
  refine ⟨?_, ?_, ?_⟩
  · rw [parseRecords_length, break_up_length lines k hk]
  · rw [break_up_fasta_file, breakLoop_join]
    rfl
  · rw [break_up_fasta_file, breakLoop_records]
    rfl

/-- C9 witness: three records split with k = 2 give two chunks that
concatenate back to the source and carry each record exactly once. -/
theorem claim_C9_witness :
    0 < 2 ∧
    ((break_up_fasta_file [">a", "x", ">b", "y", ">c"] 2).length =
      (if (parseRecords [">a", "x", ">b", "y", ">c"]).length = 0 then 1
        else ((parseRecords [">a", "x", ">b", "y", ">c"]).length + 2 - 1) / 2) ∧
    (break_up_fasta_file [">a", "x", ">b", "y", ">c"] 2).flatten =
      [">a", "x", ">b", "y", ">c"] ∧
    ((break_up_fasta_file [">a", "x", ">b", "y", ">c"] 2).map parseRecords).flatten =
      parseRecords [">a", "x", ">b", "y", ">c"]) :=
  ⟨by decide, claim_C9 [">a", "x", ">b", "y", ">c"] 2 (by decide)⟩

end Humann2
